import Mathlib

/-!
Verification development for the FORTRAN fixed-column reader of
`MDAnalysis/core/util.py` (classes `FixedcolumnEntry` and `FORTRANReader`,
helper `strip`, and the module-level regular expression
`FORTRAN_format_regex`).

Python strings are modelled as `List Char`; Python exceptions are modelled
by the `PyError` type and fallible operations return `Except PyError _`.
Every definition below is a direct transcription of the corresponding
Python function; comments cite the source lines.
-/

namespace MDAUtil

/-- Python strings are modelled as lists of characters. -/
abbrev Str := List Char

/-- Character class `[IFEAX]` of the format regular expression
`FORTRAN_format_regex` (util.py line 197). -/
def isFormatChar (c : Char) : Bool :=
  c = 'I' || c = 'F' || c = 'E' || c = 'A' || c = 'X'

/-- Value of a nonempty decimal digit string, as Python `int()` computes it
for a string of digits. -/
def digitsToNat (s : Str) : Nat :=
  s.foldl (fun acc c => acc * 10 + (c.toNat - '0'.toNat)) 0

/-- The named captures of a successful `re.match` of
`FORTRAN_format_regex` (util.py line 197):
`(?P<repeat>\d+?)(?P<format>[IFEAX])(?P<numfmt>(?P<length>\d+)(\.(?P<decimals>\d+))?)?`.
`rep` models the group `repeat` (always a nonempty digit string),
`format` the one-letter type code, `length`/`decimals` the optional
numeric captures (`none` models Python's `None` for an unmatched group). -/
structure GroupDict where
  rep : Str
  format : Char
  length : Option Str
  decimals : Option Str

/-- Model of `_FORTRAN_format_pattern.match(s)` (util.py lines 197-198,
used at lines 319 and 322).  `re.match` anchors at the start of the string
only; trailing unmatched characters are ignored.  Because the character
class `[IFEAX]` contains no digit, the lazy group `repeat = \d+?` must
consume exactly the maximal leading digit run (at least one digit), the
next character must lie in `[IFEAX]`, and the greedy optional `numfmt`
group then captures `length` (a digit run) and, when a dot followed by at
least one digit follows, `decimals`. -/
def regexMatchFORTRAN (s : Str) : Option GroupDict :=
  if (s.takeWhile Char.isDigit).isEmpty then none
  else
    match s.drop (s.takeWhile Char.isDigit).length with
    | [] => none
    | c :: rest2 =>
      if isFormatChar c then
        if (rest2.takeWhile Char.isDigit).isEmpty then
          some ⟨s.takeWhile Char.isDigit, c, none, none⟩
        else
          match rest2.drop (rest2.takeWhile Char.isDigit).length with
          | '.' :: rest3 =>
            if (rest3.takeWhile Char.isDigit).isEmpty then
              some ⟨s.takeWhile Char.isDigit, c,
                    some (rest2.takeWhile Char.isDigit), none⟩
            else
              some ⟨s.takeWhile Char.isDigit, c,
                    some (rest2.takeWhile Char.isDigit),
                    some (rest3.takeWhile Char.isDigit)⟩
          | _ =>
            some ⟨s.takeWhile Char.isDigit, c,
                  some (rest2.takeWhile Char.isDigit), none⟩
      else none

/-- The Python exceptions that the modelled code can raise. -/
inductive PyError where
  /-- `ValueError`; the payload records the offending substring. -/
  | valueError (offending : Str)
  /-- `TypeError`, e.g. from `int * None`. -/
  | typeError
  /-- `AttributeError`, e.g. from `None.groupdict()`. -/
  | attributeError
  /-- `KeyError`, e.g. from `convertors[typespecifier]`. -/
  | keyError

/-- The dictionary returned by `FORTRANReader.parse_FORTRAN_format`
(util.py lines 325-338) after the `int()` conversion loop: `rep` models
`d['repeat']` (an int), `length` and `decimals` keep `none` for Python's
`None` (the `except TypeError: pass` branch), and `totallength` models
`d['totallength'] = d['repeat'] * d['length']`. -/
structure Descriptor where
  rep : Nat
  format : Char
  length : Option Nat
  decimals : Option Nat
  totallength : Nat

/-- Body of `parse_FORTRAN_format` after a successful match
(util.py lines 325-338): `d = m.groupdict()`; the `d['repeat'] == ''`
check at line 326 is dead because the capture `\d+?` always holds at
least one digit; `X` forces `d['length'] = 1` (line 329); the loop at
lines 330-336 converts digit strings with `int()` and keeps `None`
(`except TypeError`); finally `d['totallength'] = d['repeat'] * d['length']`
raises `TypeError` when `d['length']` is still `None`. -/
def buildDescriptor (m : GroupDict) : Except PyError Descriptor :=
  match (if m.format = 'X' then some 1 else m.length.map digitsToNat) with
  | some l =>
    .ok ⟨digitsToNat m.rep, m.format, some l, m.decimals.map digitsToNat,
         digitsToNat m.rep * l⟩
  | none => .error .typeError

/-- Python `str.upper()`, for the ASCII range the format grammar uses. -/
def pyUpper (s : Str) : Str := s.map Char.toUpper

/-- `FORTRANReader.parse_FORTRAN_format` (util.py lines 305-338).
First `m = pattern.match(edit_descriptor.upper())` (line 319); if that is
`None`, retry with `"1" + edit_descriptor.upper()` (line 322).  The
`except:`/`raise ValueError` at lines 323-324 is unreachable: `re.match`
on a string returns `None` instead of raising, so when the retry also
fails, `m.groupdict()` at line 325 raises `AttributeError`
(`'NoneType' object has no attribute 'groupdict'`). -/
def parse_FORTRAN_format (edit_descriptor : Str) : Except PyError Descriptor :=
  match regexMatchFORTRAN (pyUpper edit_descriptor) with
  | some m => buildDescriptor m
  | none =>
    match regexMatchFORTRAN ('1' :: pyUpper edit_descriptor) with
    | some m => buildDescriptor m
    | none => .error .attributeError

/-- The characters Python `str.strip()` removes (ASCII whitespace). -/
def isPySpace (c : Char) : Bool :=
  c = ' ' || c = '\t' || c = '\n' || c.toNat = 11 || c.toNat = 12 || c = '\r'

/-- Python `s.strip()`; also the helper `strip` of util.py lines 200-202
(its `str(s)` coercion is the identity on strings). -/
def pyStrip (s : Str) : Str :=
  ((s.dropWhile isPySpace).reverse.dropWhile isPySpace).reverse

/-- Test for a nonempty all-digit string. -/
def digitsNonempty (t : Str) : Bool := !t.isEmpty && t.all Char.isDigit

/-- Python 2 `int(s)` on a string: surrounding whitespace is stripped, an
optional single sign is allowed, and the remainder must be a nonempty
digit run; anything else raises `ValueError` (modelled by `none`). -/
def pyInt (s : Str) : Option Int :=
  match pyStrip s with
  | '+' :: t => if digitsNonempty t then some (digitsToNat t : Int) else none
  | '-' :: t => if digitsNonempty t then some (-(digitsToNat t : Int)) else none
  | t => if digitsNonempty t then some (digitsToNat t : Int) else none

/-- Exponent tail of a Python float literal: empty, or `e`/`E`, an
optional sign, and a nonempty digit run. -/
def pyFloatExpTail : Str → Bool
  | [] => true
  | c :: rest =>
    if c = 'e' || c = 'E' then
      match rest with
      | '+' :: t => digitsNonempty t
      | '-' :: t => digitsNonempty t
      | t => digitsNonempty t
    else false

/-- Unsigned body of a Python float literal: `digits [. digits?]` or
`. digits`, followed by an optional exponent tail. -/
def pyFloatBody (t : Str) : Bool :=
  let ds := t.takeWhile Char.isDigit
  match t.drop ds.length with
  | '.' :: frac =>
    let fs := frac.takeWhile Char.isDigit
    (!ds.isEmpty || !fs.isEmpty) && pyFloatExpTail (frac.drop fs.length)
  | r => !ds.isEmpty && pyFloatExpTail r

/-- Python `str.lower()`, for the ASCII range used by `inf`/`nan`. -/
def pyLower (s : Str) : Str := s.map Char.toLower

/-- Python `float(s)` succeeds exactly when the stripped string is an
optionally signed float literal or one of the special spellings
`inf`, `infinity`, `nan` (case-insensitive). -/
def pyFloatValid (s : Str) : Bool :=
  let t := match pyStrip s with
           | '+' :: u => u
           | '-' :: u => u
           | u => u
  pyFloatBody t || pyLower t == ['i', 'n', 'f'] ||
    pyLower t == ['i', 'n', 'f', 'i', 'n', 'i', 't', 'y'] ||
    pyLower t == ['n', 'a', 'n']

/-- Values produced by the convertors `{'I': int, 'F': float, 'E': float,
'A': strip}` (util.py line 210).  Since no claim compares two float
values, a float is represented by its whitespace-stripped literal text;
success and failure of `float()` are modelled exactly by `pyFloatValid`. -/
inductive PyValue where
  | int (n : Int)
  | float (lit : Str)
  | str (s : Str)

/-- Python slicing `line[a:b]` for non-negative bounds: out-of-range
indices are clamped, and `a >= b` yields the empty string. -/
def pySlice (line : Str) (a b : Nat) : Str := (line.drop a).take (b - a)

/-- `FixedcolumnEntry` (util.py lines 204-239): an entry at fixed columns
`[start, stop)` with a one-letter type specifier. -/
structure FixedcolumnEntry where
  start : Nat
  stop : Nat
  typespecifier : Char

/-- `FixedcolumnEntry.read` (util.py lines 228-234): slice
`line[start:stop]` and convert with `convertors[typespecifier]`; a
conversion `ValueError` is re-raised as a `ValueError` whose arguments
include the offending slice.  The final branch models the `KeyError`
that `convertors[typespecifier]` (looked up in `__init__`, line 227)
raises for a specifier outside `{I, F, E, A}` — no such entry can be
constructed, so reads through a compiled reader never reach it. -/
def FixedcolumnEntry.read (e : FixedcolumnEntry) (line : Str) :
    Except PyError PyValue :=
  match e.typespecifier with
  | 'I' =>
    match pyInt (pySlice line e.start e.stop) with
    | some n => .ok (.int n)
    | none => .error (.valueError (pySlice line e.start e.stop))
  | 'F' =>
    if pyFloatValid (pySlice line e.start e.stop) then
      .ok (.float (pyStrip (pySlice line e.start e.stop)))
    else .error (.valueError (pySlice line e.start e.stop))
  | 'E' =>
    if pyFloatValid (pySlice line e.start e.stop) then
      .ok (.float (pyStrip (pySlice line e.start e.stop)))
    else .error (.valueError (pySlice line e.start e.stop))
  | 'A' => .ok (.str (pyStrip (pySlice line e.start e.stop)))
  | _ => .error .keyError

/-- Python `fmt.split(',')`: split on every comma; adjacent commas and
leading/trailing commas produce empty pieces, and the empty string splits
into one empty piece. -/
def splitOnComma : Str → List Str
  | [] => [[]]
  | c :: rest =>
    if c = ',' then [] :: splitOnComma rest
    else
      match splitOnComma rest with
      | [] => [[c]]
      | g :: gs => (c :: g) :: gs

/-- Python `",".join(groups)` for a nonempty list of groups. -/
def joinComma : List Str → Str
  | [] => []
  | [g] => g
  | g :: gs => g ++ ',' :: joinComma gs

/-- The list comprehension
`[self.parse_FORTRAN_format(descriptor) for descriptor in self.fmt]`
(util.py line 268): descriptors are parsed left to right and the first
exception propagates. -/
def parseAll : List Str → Except PyError (List Descriptor)
  | [] => .ok []
  | t :: ts =>
    match parse_FORTRAN_format t with
    | .error e => .error e
    | .ok d =>
      match parseAll ts with
      | .error e => .error e
      | .ok ds => .ok (d :: ds)

/-- The inner loop of `FORTRANReader.__init__` (util.py lines 273-276):
`for x in range(d['repeat']): stop = start + d['length'];
entries.append(FixedcolumnEntry(start, stop, d['format'])); start = stop`.
Returns the emitted entries together with the final cursor. -/
def emitEntries (fm : Char) (w : Nat) : Nat → Nat → List FixedcolumnEntry × Nat
  | 0, start => ([], start)
  | n + 1, start =>
    let p := emitEntries fm w n (start + w)
    (FixedcolumnEntry.mk start (start + w) fm :: p.1, p.2)

/-- The outer loop of `FORTRANReader.__init__` (util.py lines 269-278):
walk the parsed descriptors with a running cursor `start`; a non-`X`
descriptor emits `repeat` entries of width `length`, an `X` descriptor
only advances the cursor by `totallength`.  (`getD 0` is unreachable:
every descriptor `parse_FORTRAN_format` returns has `length = some _`,
since a `None` length raises `TypeError` before the descriptor is
returned.) -/
def buildEntries : List Descriptor → Nat → List FixedcolumnEntry
  | [], _ => []
  | d :: ds, start =>
    if d.format = 'X' then buildEntries ds (start + d.totallength)
    else
      let p := emitEntries d.format (d.length.getD 0) d.rep start
      p.1 ++ buildEntries ds p.2

/-- `FORTRANReader` (util.py lines 241-345): the split format string
(`self.fmt`) and the compiled column entries (`self.entries`). -/
structure FORTRANReader where
  fmt : List Str
  entries : List FixedcolumnEntry

/-- `FORTRANReader.__init__` (util.py lines 262-278): split the format
string on commas, parse every token, then expand the descriptors into
column entries starting at cursor 0.  Any exception raised while parsing
a token propagates and no reader is produced. -/
def FORTRANReader.init (fmt : Str) : Except PyError FORTRANReader :=
  match parseAll (splitOnComma fmt) with
  | .error e => .error e
  | .ok ds => .ok ⟨splitOnComma fmt, buildEntries ds 0⟩

/-- The list comprehension of `FORTRANReader.read` (util.py line 291):
entries are read left to right and the first conversion error aborts the
whole read — no partial list is produced. -/
def readEntries : List FixedcolumnEntry → Str → Except PyError (List PyValue)
  | [], _ => .ok []
  | e :: es, line =>
    match e.read line with
    | .error err => .error err
    | .ok v =>
      match readEntries es line with
      | .error err => .error err
      | .ok vs => .ok (v :: vs)

/-- `FORTRANReader.read` (util.py lines 280-291). -/
def FORTRANReader.read (r : FORTRANReader) (line : Str) :
    Except PyError (List PyValue) :=
  readEntries r.entries line

/-- `FORTRANReader.number_of_matches` (util.py lines 293-303): try every
entry, count the successes, silently swallow every `ValueError`.  This is
the spec's `probe`. -/
def FORTRANReader.number_of_matches (r : FORTRANReader) (line : Str) : Nat :=
  r.entries.foldl
    (fun acc e =>
      match e.read line with
      | .ok _ => acc + 1
      | .error _ => acc) 0

/-- `FORTRANReader.__len__` (util.py lines 340-342); the spec's
`entry_count()`. -/
def FORTRANReader.len (r : FORTRANReader) : Nat := r.entries.length

/-- `FORTRANReader.__repr__` (util.py lines 344-345):
`self.__class__.__name__ + "(" + ",".join(self.fmt) + ")"`; the spec's
`describe()`. -/
def FORTRANReader.describe (r : FORTRANReader) : Str :=
  ("FORTRANReader(".toList) ++ joinComma r.fmt ++ (")".toList)

/-- Success test for a conversion result. -/
def isOkE (x : Except PyError PyValue) : Bool :=
  match x with
  | .ok _ => true
  | .error _ => false

/-- A segment of the column line: either a compiled entry or the gap an
`X` (skip) descriptor leaves.  Used to state contiguity of the layout. -/
inductive Segment where
  | field (e : FixedcolumnEntry)
  | gap (start stop : Nat)

/-- Left end of a segment. -/
def Segment.left : Segment → Nat
  | .field e => e.start
  | .gap a _ => a

/-- Right end of a segment. -/
def Segment.right : Segment → Nat
  | .field e => e.stop
  | .gap _ b => b

/-- The entry a segment carries, if any. -/
def Segment.entryOf : Segment → Option FixedcolumnEntry
  | .field e => some e
  | .gap _ _ => none

/-- The full segment trace of `FORTRANReader.__init__`: identical cursor
walk to `buildEntries`, but skip descriptors leave an explicit `gap`
segment instead of nothing. -/
def buildSegments : List Descriptor → Nat → List Segment
  | [], _ => []
  | d :: ds, start =>
    if d.format = 'X' then
      .gap start (start + d.totallength) ::
        buildSegments ds (start + d.totallength)
    else
      let p := emitEntries d.format (d.length.getD 0) d.rep start
      p.1.map .field ++ buildSegments ds p.2

/-- A list of segments tiles the line contiguously from column `c`: each
segment starts exactly where its predecessor stopped. -/
inductive Tiles : Nat → List Segment → Prop where
  | nil (c : Nat) : Tiles c []
  | cons (c : Nat) (s : Segment) (ss : List Segment)
      (hl : s.left = c) (ht : Tiles s.right ss) : Tiles c (s :: ss)

/-! ### Helper lemmas about the entry-emission loop -/

/-- The final cursor of the emission loop is `start + n * w`. -/
lemma emitEntries_snd (fm : Char) (w : Nat) :
    ∀ (n s : Nat), (emitEntries fm w n s).2 = s + n * w := by
  intro n
  induction n with
  | zero => intro s; simp [emitEntries]
  | succ k ih =>
    intro s
    simp only [emitEntries, ih]
    ring

/-- The emission loop emits exactly `n` entries. -/
lemma emitEntries_length (fm : Char) (w : Nat) :
    ∀ (n s : Nat), (emitEntries fm w n s).1.length = n := by
  intro n
  induction n with
  | zero => intro s; simp [emitEntries]
  | succ k ih => intro s; simp [emitEntries, ih]

/-- Shape of every emitted entry: it lies at or after the initial cursor,
its width is `w`, it ends at or before the final cursor, and it carries
the emitting descriptor's type code. -/
lemma emitEntries_mem (fm : Char) (w : Nat) :
    ∀ (n s : Nat), ∀ e ∈ (emitEntries fm w n s).1,
      s ≤ e.start ∧ e.stop = e.start + w ∧ e.stop ≤ s + n * w ∧
        e.typespecifier = fm := by
  intro n
  induction n with
  | zero => intro s e he; simp [emitEntries] at he
  | succ k ih =>
    intro s e he
    simp only [emitEntries, List.mem_cons] at he
    rcases he with rfl | he
    · refine ⟨Nat.le_refl _, rfl, ?_, rfl⟩
      have : s + w ≤ s + (k + 1) * w := by
        have : w ≤ (k + 1) * w := Nat.le_mul_of_pos_left w (Nat.succ_pos k)
        omega
      simpa using this
    · obtain ⟨h1, h2, h3, h4⟩ := ih (s + w) e he
      refine ⟨by omega, h2, ?_, h4⟩
      have : s + w + k * w = s + (k + 1) * w := by ring
      omega

/-- Consecutive emitted entries are exactly adjacent. -/
lemma emitEntries_chain (fm : Char) (w : Nat) :
    ∀ (n s : Nat),
      List.Chain' (fun a b => a.stop ≤ b.start) (emitEntries fm w n s).1 := by
  intro n
  induction n with
  | zero => intro s; simp [emitEntries]
  | succ k ih =>
    intro s
    simp only [emitEntries]
    rw [List.chain'_cons']
    refine ⟨?_, ih (s + w)⟩
    intro y hy
    have hmem : y ∈ (emitEntries fm w k (s + w)).1 :=
      List.mem_of_mem_head? hy
    have := emitEntries_mem fm w k (s + w) y hmem
    simpa using this.1

/-! ### Helper lemmas about the descriptor-expansion loop -/

/-- Entry count of the compiled layout: the sum, over all non-`X`
descriptors, of their repeat counts. -/
lemma buildEntries_length :
    ∀ (ds : List Descriptor) (c : Nat),
      (buildEntries ds c).length =
        (ds.map (fun d => if d.format = 'X' then 0 else d.rep)).sum := by
  intro ds
  induction ds with
  | nil => intro c; simp [buildEntries]
  | cons d rest ih =>
    intro c
    by_cases hx : d.format = 'X'
    · simp [buildEntries, hx, ih]
    · simp [buildEntries, hx, ih, emitEntries_length]

/-- Every compiled entry starts at or after the initial cursor, is
well-ordered (`start ≤ stop`), and carries the type code of some non-`X`
descriptor of the list. -/
lemma buildEntries_mem :
    ∀ (ds : List Descriptor) (c : Nat), ∀ e ∈ buildEntries ds c,
      c ≤ e.start ∧ e.start ≤ e.stop ∧
        ∃ d ∈ ds, d.format = e.typespecifier ∧ d.format ≠ 'X' := by
  intro ds
  induction ds with
  | nil => intro c e he; simp [buildEntries] at he
  | cons d rest ih =>
    intro c e he
    by_cases hx : d.format = 'X'
    · simp only [buildEntries, hx, if_pos] at he
      obtain ⟨h1, h2, dd, hdd, h3⟩ := ih _ e he
      exact ⟨by omega, h2, dd, List.mem_cons_of_mem _ hdd, h3⟩
    · simp only [buildEntries, hx, if_neg, not_false_iff, List.mem_append] at he
      rcases he with he | he
      · obtain ⟨h1, h2, h3, h4⟩ :=
          emitEntries_mem d.format (d.length.getD 0) d.rep c e he
        exact ⟨h1, by omega, d, List.mem_cons_self d rest, h4.symm, hx⟩
      · obtain ⟨h1, h2, dd, hdd, h3⟩ := ih _ e he
        rw [emitEntries_snd] at h1
        exact ⟨by omega, h2, dd, List.mem_cons_of_mem _ hdd, h3⟩

/-- Compiled entries are listed in non-decreasing, non-overlapping column
order: each entry stops at or before the next one starts. -/
lemma buildEntries_chain :
    ∀ (ds : List Descriptor) (c : Nat),
      List.Chain' (fun a b => a.stop ≤ b.start) (buildEntries ds c) := by
  intro ds
  induction ds with
  | nil => intro c; simp [buildEntries]
  | cons d rest ih =>
    intro c
    by_cases hx : d.format = 'X'
    · simpa [buildEntries, hx] using ih (c + d.totallength)
    · simp only [buildEntries, hx, if_neg, not_false_iff]
      refine List.Chain'.append (emitEntries_chain _ _ _ _) (ih _) ?_
      intro x hx' y hy
      have hxm : x ∈ (emitEntries d.format (d.length.getD 0) d.rep c).1 :=
        List.mem_of_mem_getLast? hx'
      have hym : y ∈ buildEntries rest
          (emitEntries d.format (d.length.getD 0) d.rep c).2 :=
        List.mem_of_mem_head? hy
      have h1 := (emitEntries_mem _ _ _ _ x hxm).2.2.1
      have h2 := (buildEntries_mem rest _ y hym).1
      rw [emitEntries_snd] at h2
      omega

/-- The emitted entries, viewed as field segments, tile the line from the
initial cursor onto any tail that tiles from the final cursor. -/
lemma emitEntries_tiles (fm : Char) (w : Nat) :
    ∀ (n s : Nat) (ks : List Segment), Tiles (s + n * w) ks →
      Tiles s ((emitEntries fm w n s).1.map Segment.field ++ ks) := by
  intro n
  induction n with
  | zero => intro s ks h; simpa [emitEntries] using h
  | succ k ih =>
    intro s ks h
    simp only [emitEntries, List.map_cons, List.cons_append]
    refine Tiles.cons _ _ _ rfl ?_
    show Tiles (s + w) _
    have hsw : s + w + k * w = s + (k + 1) * w := by ring
    exact ih (s + w) ks (by rw [hsw]; exact h)

/-- The full segment trace of compilation tiles the line contiguously
from the initial cursor: every segment (entry or skip gap) starts exactly
where its predecessor stopped. -/
lemma buildSegments_tiles :
    ∀ (ds : List Descriptor) (c : Nat), Tiles c (buildSegments ds c) := by
  intro ds
  induction ds with
  | nil => intro c; exact Tiles.nil c
  | cons d rest ih =>
    intro c
    by_cases hx : d.format = 'X'
    · simp only [buildSegments, hx, if_pos]
      exact Tiles.cons _ _ _ rfl (ih _)
    · simp only [buildSegments, hx, if_neg, not_false_iff]
      refine emitEntries_tiles _ _ _ _ _ ?_
      rw [← emitEntries_snd d.format (d.length.getD 0) d.rep c]
      exact ih _

/-- Erasing the skip gaps from the segment trace leaves exactly the
compiled entries. -/
lemma buildSegments_fields :
    ∀ (ds : List Descriptor) (c : Nat),
      (buildSegments ds c).filterMap Segment.entryOf = buildEntries ds c := by
  intro ds
  induction ds with
  | nil => intro c; simp [buildSegments, buildEntries]
  | cons d rest ih =>
    intro c
    by_cases hx : d.format = 'X'
    · simp [buildSegments, buildEntries, hx, ih, Segment.entryOf]
    · simp only [buildSegments, buildEntries, hx, if_neg, not_false_iff,
        List.filterMap_append, List.filterMap_map, ih]
      congr 1
      have : (Segment.entryOf ∘ Segment.field) = some := by
        funext e; rfl
      rw [this, List.filterMap_some]

/-! ### Inversion lemmas for descriptor parsing -/

/-- A successful regex match captures a type code from `[IFEAX]`. -/
lemma regexMatch_format {s : Str} {m : GroupDict}
    (h : regexMatchFORTRAN s = some m) : isFormatChar m.format = true := by
  unfold regexMatchFORTRAN at h
  split at h
  · exact absurd h (by simp)
  · split at h
    · exact absurd h (by simp)
    · rename_i c rest2 heq
      split at h
      · rename_i hc
        split at h
        · exact (Option.some_inj.mp h) ▸ hc
        · split at h
          · split at h
            · exact (Option.some_inj.mp h) ▸ hc
            · exact (Option.some_inj.mp h) ▸ hc
          · exact (Option.some_inj.mp h) ▸ hc
      · exact absurd h (by simp)

/-- A successful regex match captures the maximal leading digit run as
the repeat group. -/
lemma regexMatch_rep {s : Str} {m : GroupDict}
    (h : regexMatchFORTRAN s = some m) :
    m.rep = s.takeWhile Char.isDigit := by
  unfold regexMatchFORTRAN at h
  split at h
  · exact absurd h (by simp)
  · split at h
    · exact absurd h (by simp)
    · split at h
      · split at h
        · exact congrArg GroupDict.rep (Option.some_inj.mp h).symm
        · split at h
          · split at h
            · exact congrArg GroupDict.rep (Option.some_inj.mp h).symm
            · exact congrArg GroupDict.rep (Option.some_inj.mp h).symm
          · exact congrArg GroupDict.rep (Option.some_inj.mp h).symm
      · exact absurd h (by simp)

/-- Shape of a descriptor successfully built from a match: it keeps the
captured type code and repeat count, its width is present (an absent
width raises `TypeError` before the descriptor is returned), and its
total width is `repeat * width`. -/
lemma buildDescriptor_ok {m : GroupDict} {d : Descriptor}
    (h : buildDescriptor m = .ok d) :
    d.format = m.format ∧ d.rep = digitsToNat m.rep ∧
      ∃ w, d.length = some w ∧ d.totallength = d.rep * w := by
  unfold buildDescriptor at h
  split at h
  · rename_i l heq
    cases h
    exact ⟨rfl, rfl, l, rfl, rfl⟩
  · exact absurd h (by simp)

/-- A descriptor built from an `X` match has width forced to `1` and its
total width therefore equals its repeat count. -/
lemma buildDescriptor_X {m : GroupDict} {d : Descriptor}
    (h : buildDescriptor m = .ok d) (hx : m.format = 'X') :
    d.length = some 1 ∧ d.totallength = d.rep := by
  unfold buildDescriptor at h
  rw [if_pos hx] at h
  cases h
  exact ⟨rfl, (Nat.mul_one _)⟩

/-- Every successful parse goes through the direct match or the
`"1"`-prefixed retry, then through `buildDescriptor`. -/
lemma parse_ok_cases {t : Str} {d : Descriptor}
    (h : parse_FORTRAN_format t = .ok d) :
    ∃ m, (regexMatchFORTRAN (pyUpper t) = some m ∨
          regexMatchFORTRAN ('1' :: pyUpper t) = some m) ∧
      buildDescriptor m = .ok d := by
  unfold parse_FORTRAN_format at h
  split at h
  · rename_i m heq; exact ⟨m, Or.inl heq, h⟩
  · split at h
    · rename_i m heq; exact ⟨m, Or.inr heq, h⟩
    · exact absurd h (by simp)

/-- A successfully parsed descriptor's type code lies in `[IFEAX]`. -/
lemma parse_ok_format {t : Str} {d : Descriptor}
    (h : parse_FORTRAN_format t = .ok d) : isFormatChar d.format = true := by
  obtain ⟨m, hm, hb⟩ := parse_ok_cases h
  have hf := (buildDescriptor_ok hb).1
  rcases hm with hm | hm
  · exact hf ▸ regexMatch_format hm
  · exact hf ▸ regexMatch_format hm

/-- A successfully parsed descriptor always has an explicit width, and
its total width is `repeat * width`. -/
lemma parse_ok_length {t : Str} {d : Descriptor}
    (h : parse_FORTRAN_format t = .ok d) :
    ∃ w, d.length = some w ∧ d.totallength = d.rep * w := by
  obtain ⟨m, _, hb⟩ := parse_ok_cases h
  exact (buildDescriptor_ok hb).2.2

/-- A successfully parsed `X` descriptor has width forced to `1` and
total width equal to its repeat count. -/
lemma parse_ok_X {t : Str} {d : Descriptor}
    (h : parse_FORTRAN_format t = .ok d) (hx : d.format = 'X') :
    d.length = some 1 ∧ d.totallength = d.rep := by
  obtain ⟨m, hm, hb⟩ := parse_ok_cases h
  have hf := (buildDescriptor_ok hb).1
  exact buildDescriptor_X hb (hf ▸ hx)

/-- A token with no leading digits (no written repeat count) parses with
repeat count `1`: the direct match fails and the retry prefixes the
digit `1`, which becomes the whole repeat capture. -/
lemma parse_default_rep {t : Str} {d : Descriptor}
    (h : parse_FORTRAN_format t = .ok d)
    (hnd : (pyUpper t).takeWhile Char.isDigit = []) : d.rep = 1 := by
  obtain ⟨m, hm, hb⟩ := parse_ok_cases h
  have hrep := (buildDescriptor_ok hb).2.1
  rcases hm with hm | hm
  · have := regexMatch_rep hm
    rw [hnd] at this
    unfold regexMatchFORTRAN at hm
    rw [hnd] at hm
    simp at hm
  · have hr := regexMatch_rep hm
    have : ('1' :: pyUpper t).takeWhile Char.isDigit = ['1'] := by
      rw [List.takeWhile_cons]
      simp [hnd]
    rw [this] at hr
    rw [hrep, hr]
    rfl

/-! ### Helper lemmas about reading and probing -/

/-- An `A` entry converts every line successfully, to the
whitespace-stripped slice. -/
lemma read_A (a b : Nat) (line : Str) :
    (FixedcolumnEntry.mk a b 'A').read line =
      .ok (.str (pyStrip (pySlice line a b))) := rfl

/-- A failing conversion of an entry whose type code lies in `[IFEAX]`
but is not `X` is always a `ValueError` carrying the offending slice:
`A` entries never fail, and `I`/`F`/`E` failures come from `int()` or
`float()`. -/
lemma read_err_valueError {e : FixedcolumnEntry} {line : Str} {err : PyError}
    (hts : isFormatChar e.typespecifier = true) (hne : e.typespecifier ≠ 'X')
    (h : e.read line = .error err) :
    err = .valueError (pySlice line e.start e.stop) := by
  rcases e with ⟨a, b, c⟩
  simp only at hne
  have hcases : c = 'I' ∨ c = 'F' ∨ c = 'E' ∨ c = 'A' := by
    unfold isFormatChar at hts
    simp only [Bool.or_eq_true, decide_eq_true_eq] at hts
    tauto
  rcases hcases with rfl | rfl | rfl | rfl
  · simp only [FixedcolumnEntry.read] at h
    split at h
    · exact absurd h (by simp)
    · exact (Except.error.inj h).symm
  · simp only [FixedcolumnEntry.read] at h
    split at h
    · exact absurd h (by simp)
    · exact (Except.error.inj h).symm
  · simp only [FixedcolumnEntry.read] at h
    split at h
    · exact absurd h (by simp)
    · exact (Except.error.inj h).symm
  · simp only [FixedcolumnEntry.read] at h
    exact absurd h (by simp)

/-- If every entry converts successfully, `read` succeeds. -/
lemma readEntries_ok_of_all :
    ∀ (es : List FixedcolumnEntry) (line : Str),
      (∀ e ∈ es, isOkE (e.read line) = true) →
      ∃ vs, readEntries es line = .ok vs := by
  intro es line
  induction es with
  | nil => intro _; exact ⟨[], rfl⟩
  | cons e rest ih =>
    intro h
    have he := h e (List.mem_cons_self e rest)
    obtain ⟨vs, hvs⟩ := ih (fun x hx => h x (List.mem_cons_of_mem e hx))
    unfold isOkE at he
    split at he
    · rename_i v hv
      exact ⟨v :: vs, by simp [readEntries, hv, hvs]⟩
    · exact absurd he (by simp)

/-- The error a failing `read` propagates is the error of some entry of
the reader (the leftmost failing one). -/
lemma readEntries_error_mem :
    ∀ (es : List FixedcolumnEntry) (line : Str) (err : PyError),
      readEntries es line = .error err →
      ∃ e ∈ es, e.read line = .error err := by
  intro es line
  induction es with
  | nil => intro err h; exact absurd h (by simp [readEntries])
  | cons e rest ih =>
    intro err h
    unfold readEntries at h
    split at h
    · rename_i herr
      cases h
      exact ⟨e, List.mem_cons_self e rest, herr⟩
    · split at h
      · rename_i herr
        cases h
        obtain ⟨x, hx, hxe⟩ := ih err herr
        exact ⟨x, List.mem_cons_of_mem e hx, hxe⟩
      · exact absurd h (by simp)

/-- If some entry fails to convert, `read` fails. -/
lemma readEntries_error_of_mem :
    ∀ (es : List FixedcolumnEntry) (line : Str) (e : FixedcolumnEntry),
      e ∈ es → isOkE (e.read line) = false →
      ∃ err, readEntries es line = .error err := by
  intro es line
  induction es with
  | nil => intro e he _; exact absurd he (by simp)
  | cons x rest ih =>
    intro e he hf
    rcases List.mem_cons.mp he with rfl | he
    · unfold isOkE at hf
      split at hf
      · exact absurd hf (by simp)
      · rename_i err herr
        exact ⟨err, by simp [readEntries, herr]⟩
    · obtain ⟨err, herr⟩ := ih e he hf
      cases hx : x.read line with
      | error xe => exact ⟨xe, by simp [readEntries, hx]⟩
      | ok v => exact ⟨err, by simp [readEntries, hx, herr]⟩

/-- Successful conversions satisfy the success test. -/
lemma isOkE_ok (v : PyValue) : isOkE (.ok v) = true := rfl

/-- Failed conversions falsify the success test. -/
lemma isOkE_error (err : PyError) : isOkE (.error err) = false := rfl

/-- The match-counting fold, started at any accumulator, adds the number
of successfully converting entries. -/
lemma foldl_matches_eq :
    ∀ (es : List FixedcolumnEntry) (line : Str) (acc : Nat),
      es.foldl
        (fun acc e =>
          match e.read line with
          | .ok _ => acc + 1
          | .error _ => acc) acc =
        acc + es.countP (fun e => isOkE (e.read line)) := by
  intro es line
  induction es with
  | nil => intro acc; simp
  | cons e rest ih =>
    intro acc
    rw [List.foldl_cons, List.countP_cons]
    cases hx : e.read line with
    | ok v =>
      simp only [hx, isOkE_ok, reduceIte]
      rw [ih]
      ring
    | error err =>
      simp only [hx, isOkE_error, reduceIte]
      rw [ih]
      simp

/-- `number_of_matches` counts exactly the entries whose conversion
succeeds on the line. -/
lemma number_of_matches_eq_countP (r : FORTRANReader) (line : Str) :
    r.number_of_matches line =
      r.entries.countP (fun e => isOkE (e.read line)) := by
  unfold FORTRANReader.number_of_matches
  rw [foldl_matches_eq, Nat.zero_add]

/-- Successes and failures partition the entries. -/
lemma countP_ok_add_countP_fail :
    ∀ (es : List FixedcolumnEntry) (line : Str),
      es.countP (fun e => isOkE (e.read line)) +
        es.countP (fun e => !isOkE (e.read line)) = es.length := by
  intro es line
  induction es with
  | nil => simp
  | cons e rest ih =>
    rw [List.countP_cons, List.countP_cons]
    cases hx : isOkE (e.read line) <;> simp [hx] <;> omega

/-! ### Helper lemmas about splitting and joining the format string -/

/-- Python `split` never returns an empty list of pieces. -/
lemma splitOnComma_ne_nil : ∀ (s : Str), splitOnComma s ≠ [] := by
  intro s
  induction s with
  | nil => simp [splitOnComma]
  | cons c rest ih =>
    unfold splitOnComma
    split
    · simp
    · split
      · simp
      · simp

/-- Joining a list whose first group grew by one character. -/
lemma joinComma_cons_cons (c : Char) (g : Str) (gs : List Str) :
    joinComma ((c :: g) :: gs) = c :: joinComma (g :: gs) := by
  cases gs with
  | nil => rfl
  | cons h t => rfl

/-- Joining a list starting with an empty group inserts the comma. -/
lemma joinComma_nil_cons (g : Str) (gs : List Str) :
    joinComma ([] :: g :: gs) = ',' :: joinComma (g :: gs) := rfl

/-- Splitting on commas and joining with commas is the identity: this is
why `__repr__` reconstructs the constructor argument exactly. -/
lemma joinComma_splitOnComma : ∀ (s : Str), joinComma (splitOnComma s) = s := by
  intro s
  induction s with
  | nil => rfl
  | cons c rest ih =>
    unfold splitOnComma
    by_cases hc : c = ','
    · rw [if_pos hc]
      obtain ⟨g, gs, hgs⟩ := List.exists_cons_of_ne_nil (splitOnComma_ne_nil rest)
      rw [hgs, joinComma_nil_cons, ← hgs, ih, hc]
    · rw [if_neg hc]
      obtain ⟨g, gs, hgs⟩ := List.exists_cons_of_ne_nil (splitOnComma_ne_nil rest)
      rw [hgs]
      show joinComma ((c :: g) :: gs) = c :: rest
      rw [joinComma_cons_cons, ← hgs, ih]

/-! ### Helper lemmas about reader construction -/

/-- Inversion of `FORTRANReader.init`: a successfully constructed reader
stores the comma-split format string and the entries built from the
parsed descriptors starting at cursor 0. -/
lemma init_ok {fmt : Str} {r : FORTRANReader}
    (h : FORTRANReader.init fmt = .ok r) :
    ∃ ds, parseAll (splitOnComma fmt) = .ok ds ∧
      r.fmt = splitOnComma fmt ∧ r.entries = buildEntries ds 0 := by
  unfold FORTRANReader.init at h
  split at h
  · exact absurd h (by simp)
  · rename_i ds hds
    cases h
    exact ⟨ds, hds, rfl, rfl⟩

/-- Every parsed descriptor comes from some token of the list. -/
lemma parseAll_mem :
    ∀ (ts : List Str) (ds : List Descriptor), parseAll ts = .ok ds →
      ∀ d ∈ ds, ∃ t ∈ ts, parse_FORTRAN_format t = .ok d := by
  intro ts
  induction ts with
  | nil =>
    intro ds h d hd
    unfold parseAll at h
    cases h
    exact absurd hd (by simp)
  | cons t rest ih =>
    intro ds h d hd
    unfold parseAll at h
    split at h
    · exact absurd h (by simp)
    · rename_i d0 hd0
      split at h
      · exact absurd h (by simp)
      · rename_i ds0 hds0
        cases h
        rcases List.mem_cons.mp hd with rfl | hd
        · exact ⟨t, List.mem_cons_self t rest, hd0⟩
        · obtain ⟨t', ht', hp⟩ := ih ds0 hds0 d hd
          exact ⟨t', List.mem_cons_of_mem t ht', hp⟩

/-! ### Claim theorems -/

/-- C1: compiling the format string `"2Z10"` does not raise the
documented error naming the offending token.  Both the direct regex
match and the `"1"`-prefixed retry return `None` without raising, so the
bare `except:` around the retry (util.py lines 321-324) never fires, the
`raise ValueError("unrecognized FORTRAN format %r" % edit_descriptor)`
is unreachable, and `m.groupdict()` at line 325 raises `AttributeError`
instead.  No reader is produced, but the error contradicts both the
claim and the function's own docstring (line 313). -/
theorem c1_compile_2Z10_attributeError :
    FORTRANReader.init ("2Z10".toList) = .error .attributeError := rfl

/-- C2: for every format string accepted by compilation, the entry count
of the reader equals the sum of the repeat counts of all non-`X`
descriptor tokens (an omitted repeat count having been filled in as `1`
by the `"1"`-prefix retry during parsing). -/
theorem c2_entry_count (fmt : Str) (ds : List Descriptor) (r : FORTRANReader)
    (hds : parseAll (splitOnComma fmt) = .ok ds)
    (hr : FORTRANReader.init fmt = .ok r) :
    r.len = (ds.map (fun d => if d.format = 'X' then 0 else d.rep)).sum := by
  obtain ⟨ds', hds', hfmt, hent⟩ := init_ok hr
  rw [hds] at hds'
  cases hds'
  unfold FORTRANReader.len
  rw [hent, buildEntries_length]

/-- C2 witness: the reader compiled from `"2I10,2X,A8"` has
`2 + 0 + 1 = 3` entries. -/
theorem c2_entry_count_witness :
    (FORTRANReader.mk [['2', 'I', '1', '0'], ['2', 'X'], ['A', '8']]
        [⟨0, 10, 'I'⟩, ⟨10, 20, 'I'⟩, ⟨22, 30, 'A'⟩]).len =
      (([⟨2, 'I', some 10, none, 20⟩, ⟨2, 'X', some 1, none, 2⟩,
         ⟨1, 'A', some 8, none, 8⟩] : List Descriptor).map
        (fun d => if d.format = 'X' then 0 else d.rep)).sum :=
  c2_entry_count ("2I10,2X,A8".toList) _ _ rfl rfl

/-- C3 (amended): in every reader produced by compilation, every column
entry satisfies `start ≤ stop` (offsets are naturals, so `0 ≤ start`
holds by construction; the claimed strict `start < stop` fails for
descriptors with an explicit zero width, see the counterexample), the
entries appear in non-decreasing, non-overlapping column order, and the
full segment trace of compilation — entries plus the gaps left by skip
descriptors, which produce no entry — tiles the line contiguously from
column 0, the entries being exactly its non-gap segments. -/
theorem c3_layout_invariants (fmt : Str) (ds : List Descriptor)
    (r : FORTRANReader)
    (hds : parseAll (splitOnComma fmt) = .ok ds)
    (hr : FORTRANReader.init fmt = .ok r) :
    (∀ e ∈ r.entries, e.start ≤ e.stop) ∧
    List.Chain' (fun a b => a.stop ≤ b.start) r.entries ∧
    Tiles 0 (buildSegments ds 0) ∧
    (buildSegments ds 0).filterMap Segment.entryOf = r.entries := by
  obtain ⟨ds', hds', hfmt, hent⟩ := init_ok hr
  rw [hds] at hds'
  cases hds'
  refine ⟨?_, ?_, buildSegments_tiles ds 0, ?_⟩
  · intro e he
    rw [hent] at he
    exact (buildEntries_mem ds 0 e he).2.1
  · rw [hent]
    exact buildEntries_chain ds 0
  · rw [hent]
    exact buildSegments_fields ds 0

/-- C3 witness: the invariants at the reader compiled from
`"I2,1X,A3"`, whose entries are `[0,2)` of type `I` and `[3,6)` of type
`A` with the skip gap `[2,3)` between them. -/
theorem c3_layout_invariants_witness :
    (∀ e ∈ (FORTRANReader.mk [['I', '2'], ['1', 'X'], ['A', '3']]
        [⟨0, 2, 'I'⟩, ⟨3, 6, 'A'⟩]).entries, e.start ≤ e.stop) ∧
    List.Chain' (fun a b => a.stop ≤ b.start)
      (FORTRANReader.mk [['I', '2'], ['1', 'X'], ['A', '3']]
        [⟨0, 2, 'I'⟩, ⟨3, 6, 'A'⟩]).entries ∧
    Tiles 0 (buildSegments [⟨1, 'I', some 2, none, 2⟩,
        ⟨1, 'X', some 1, none, 1⟩, ⟨1, 'A', some 3, none, 3⟩] 0) ∧
    (buildSegments [⟨1, 'I', some 2, none, 2⟩, ⟨1, 'X', some 1, none, 1⟩,
        ⟨1, 'A', some 3, none, 3⟩] 0).filterMap Segment.entryOf =
      (FORTRANReader.mk [['I', '2'], ['1', 'X'], ['A', '3']]
        [⟨0, 2, 'I'⟩, ⟨3, 6, 'A'⟩]).entries :=
  c3_layout_invariants ("I2,1X,A3".toList) _ _ rfl rfl

/-- C3 counterexample: the format string `"I0"` compiles successfully
and yields the single entry `[0,0)` of type `I`, whose start is not
strictly below its stop — refuting the claimed invariant
`0 <= start < stop` as stated. -/
theorem c3_strictness_counterexample :
    FORTRANReader.init ("I0".toList) =
      .ok ⟨[['I', '0']], [⟨0, 0, 'I'⟩]⟩ ∧
    ¬ (FixedcolumnEntry.mk 0 0 'I').start <
        (FixedcolumnEntry.mk 0 0 'I').stop :=
  ⟨rfl, Nat.lt_irrefl 0⟩

/-- C4: compiling `"2I10,2X,A8"` yields exactly three entries — columns
`[0,10)` type `I`, `[10,20)` type `I`, and `[22,30)` type `A`, columns
`[20,22)` being skipped — and reading the given 30-column line returns
`[123, 456, "hello"]`. -/
theorem c4_concrete_layout_and_read :
    FORTRANReader.init ("2I10,2X,A8".toList) =
      .ok ⟨[['2', 'I', '1', '0'], ['2', 'X'], ['A', '8']],
           [⟨0, 10, 'I'⟩, ⟨10, 20, 'I'⟩, ⟨22, 30, 'A'⟩]⟩ ∧
    (FORTRANReader.mk [['2', 'I', '1', '0'], ['2', 'X'], ['A', '8']]
        [⟨0, 10, 'I'⟩, ⟨10, 20, 'I'⟩, ⟨22, 30, 'A'⟩]).read
        ("       123       456  hello   ".toList) =
      .ok [.int 123, .int 456, .str ("hello".toList)] :=
  ⟨rfl, rfl⟩

/-- C5: for every compiled reader and every line on which exactly one
entry's conversion fails (necessarily a numeric field: `A` entries never
fail), the probe returns the entry count minus one, while `read` fails
with the `ValueError` of the failing field (the spec's
`ConversionError`), propagated immediately — the `Except` result carries
no partial value list. -/
theorem c5_single_bad_field (fmt : Str) (r : FORTRANReader) (line : Str)
    (hr : FORTRANReader.init fmt = .ok r)
    (h1 : r.entries.countP (fun e => !isOkE (e.read line)) = 1) :
    r.number_of_matches line = r.len - 1 ∧
    ∃ s, r.read line = .error (.valueError s) := by
  obtain ⟨ds, hds, hfmt, hent⟩ := init_ok hr
  constructor
  · rw [number_of_matches_eq_countP]
    have hsum := countP_ok_add_countP_fail r.entries line
    unfold FORTRANReader.len
    omega
  · have hpos : 0 < r.entries.countP (fun e => !isOkE (e.read line)) := by
      omega
    obtain ⟨e, he, hef⟩ := List.countP_pos_iff.mp hpos
    have hef' : isOkE (e.read line) = false := by
      simpa using hef
    obtain ⟨err, herr⟩ := readEntries_error_of_mem r.entries line e he hef'
    obtain ⟨e', he', hre'⟩ := readEntries_error_mem r.entries line err herr
    have hmem : e' ∈ buildEntries ds 0 := hent ▸ he'
    obtain ⟨_, _, d, hd, hdf, hdx⟩ := buildEntries_mem ds 0 e' hmem
    obtain ⟨t, ht, hpt⟩ := parseAll_mem _ _ hds d hd
    have hfc : isFormatChar e'.typespecifier = true :=
      hdf ▸ parse_ok_format hpt
    have hnx : e'.typespecifier ≠ 'X' := fun hxx => hdx (hdf.trans hxx)
    have hval := read_err_valueError hfc hnx hre'
    refine ⟨pySlice line e'.start e'.stop, ?_⟩
    unfold FORTRANReader.read
    rw [herr, hval]

/-- C5 witness: the reader compiled from `"I2,A3"` on the line
`"abcde"` — the `I` field `"ab"` fails, the `A` field succeeds; the
probe returns `2 - 1 = 1` and `read` raises. -/
theorem c5_single_bad_field_witness :
    (FORTRANReader.mk [['I', '2'], ['A', '3']]
        [⟨0, 2, 'I'⟩, ⟨2, 5, 'A'⟩]).number_of_matches ("abcde".toList) =
      (FORTRANReader.mk [['I', '2'], ['A', '3']]
        [⟨0, 2, 'I'⟩, ⟨2, 5, 'A'⟩]).len - 1 ∧
    ∃ s, (FORTRANReader.mk [['I', '2'], ['A', '3']]
        [⟨0, 2, 'I'⟩, ⟨2, 5, 'A'⟩]).read ("abcde".toList) =
      .error (.valueError s) :=
  c5_single_bad_field ("I2,A3".toList) _ ("abcde".toList) rfl rfl

/-- C6: the probe (`number_of_matches`) is a total function — in this
embedding it returns a `Nat` and can raise nothing, mirroring that the
Python loop catches every `ValueError` — that attempts each entry's
conversion independently and returns exactly the number of entries whose
conversion succeeds on the line (any line, including the empty one);
in particular it never exceeds the entry count. -/
theorem c6_probe_total_count (r : FORTRANReader) (line : Str) :
    r.number_of_matches line =
      r.entries.countP (fun e => isOkE (e.read line)) ∧
    r.number_of_matches line ≤ r.len := by
  refine ⟨number_of_matches_eq_countP r line, ?_⟩
  rw [number_of_matches_eq_countP]
  have := countP_ok_add_countP_fail r.entries line
  unfold FORTRANReader.len
  omega

/-- C7 (amended): a token with no written repeat count parses with the
repeat defaulted to `1` (via the `"1"`-prefix retry); every successfully
parsed descriptor carries an explicit width with
`totallength = repeat * width`.  Missing numeric captures do NOT default
to `0`: a missing width stays `None` and the typed descriptor `"A"` with
the width omitted entirely fails with `TypeError` (at the
`repeat * None` total-width computation) instead of compiling as a
zero-length field, while `"1I5"` shows a missing decimals capture
staying absent rather than becoming `0`. -/
theorem c7_defaults :
    (∀ (t : Str) (d : Descriptor), parse_FORTRAN_format t = .ok d →
      (((pyUpper t).takeWhile Char.isDigit = [] → d.rep = 1) ∧
       ∃ w, d.length = some w ∧ d.totallength = d.rep * w)) ∧
    parse_FORTRAN_format ("A".toList) = .error .typeError ∧
    parse_FORTRAN_format ("1I5".toList) =
      .ok ⟨1, 'I', some 5, none, 5⟩ :=
  ⟨fun _ _ hp => ⟨fun hnd => parse_default_rep hp hnd, parse_ok_length hp⟩,
    rfl, rfl⟩

/-- C7 witness: the universally quantified part applied at the token
`"I10"`, which parses to the descriptor with repeat 1 and width 10. -/
theorem c7_defaults_witness :
    (Descriptor.mk 1 'I' (some 10) none 10).rep = 1 ∧
    ∃ w, (Descriptor.mk 1 'I' (some 10) none 10).length = some w ∧
      (Descriptor.mk 1 'I' (some 10) none 10).totallength =
        (Descriptor.mk 1 'I' (some 10) none 10).rep * w := by
  obtain ⟨h1, h2⟩ :=
    c7_defaults.1 ("I10".toList) ⟨1, 'I', some 10, none, 10⟩ rfl
  exact ⟨h1 rfl, h2⟩

/-- C7 counterexample: the typed descriptor `"A"` with the width omitted
entirely does not compile (to a zero-length field or anything else):
parsing raises `TypeError`, because the missing width capture stays
`None` — not `0` — and `d['repeat'] * d['length']` then fails. -/
theorem c7_zero_width_counterexample :
    parse_FORTRAN_format ("A".toList) = .error .typeError := rfl

/-- C8: every descriptor that parses as a skip (`X`) has its width
forced to `1` regardless of any written width, so its total width equals
its repeat count `r`; during compilation it emits no column entry and
only advances the running cursor by exactly `r`. -/
theorem c8_skip_descriptor (t : Str) (d : Descriptor)
    (hp : parse_FORTRAN_format t = .ok d) (hx : d.format = 'X') :
    d.length = some 1 ∧ d.totallength = d.rep ∧
    ∀ (ds : List Descriptor) (c : Nat),
      buildEntries (d :: ds) c = buildEntries ds (c + d.rep) := by
  obtain ⟨hl, ht⟩ := parse_ok_X hp hx
  refine ⟨hl, ht, fun ds c => ?_⟩
  have hstep : buildEntries (d :: ds) c =
      buildEntries ds (c + d.totallength) := by
    simp [buildEntries, hx]
  rw [hstep, ht]

/-- C8 witness: the token `"2X10"` parses as a skip of repeat 2 whose
written width 10 is discarded (width forced to 1, total width 2), and
expanding it emits no entries, only moving the cursor from 0 to 2. -/
theorem c8_skip_descriptor_witness :
    (Descriptor.mk 2 'X' (some 1) none 2).length = some 1 ∧
    (Descriptor.mk 2 'X' (some 1) none 2).totallength =
      (Descriptor.mk 2 'X' (some 1) none 2).rep ∧
    buildEntries [Descriptor.mk 2 'X' (some 1) none 2] 0 =
      buildEntries [] (0 + (Descriptor.mk 2 'X' (some 1) none 2).rep) := by
  obtain ⟨h1, h2, h3⟩ :=
    c8_skip_descriptor ("2X10".toList) ⟨2, 'X', some 1, none, 2⟩ rfl rfl
  exact ⟨h1, h2, h3 [] 0⟩

/-- C9: `describe` (the reader's repr) reconstructs exactly the original
format string given at construction, wrapped in the class name: the
reader stores the comma-split tokens and joining them with commas is the
identity, for every format string whatsoever. -/
theorem c9_describe_roundtrip (fmt : Str) (r : FORTRANReader)
    (hr : FORTRANReader.init fmt = .ok r) :
    r.describe = ("FORTRANReader(".toList) ++ fmt ++ (")".toList) := by
  obtain ⟨ds, hds, hfmt, hent⟩ := init_ok hr
  unfold FORTRANReader.describe
  rw [hfmt, joinComma_splitOnComma]

/-- C9 witness: the reader compiled from `"2I10,2X,A8"` describes
itself as that exact string wrapped in the class name. -/
theorem c9_describe_roundtrip_witness :
    (FORTRANReader.mk [['2', 'I', '1', '0'], ['2', 'X'], ['A', '8']]
        [⟨0, 10, 'I'⟩, ⟨10, 20, 'I'⟩, ⟨22, 30, 'A'⟩]).describe =
      ("FORTRANReader(".toList) ++ ("2I10,2X,A8".toList) ++ (")".toList) :=
  c9_describe_roundtrip ("2I10,2X,A8".toList) _ rfl

/-- C10: an `A` entry converts every line successfully — slices past the
end of the line are empty or truncated, and stripping always succeeds —
returning the whitespace-stripped slice; consequently a compiled reader
whose descriptors are all `A` or `X` reads every line without error and
its probe equals its entry count on every line. -/
theorem c10_A_total (a b : Nat) (line : Str) (fmt : Str)
    (ds : List Descriptor) (r : FORTRANReader) (line2 : Str)
    (hds : parseAll (splitOnComma fmt) = .ok ds)
    (hax : ∀ d ∈ ds, d.format = 'A' ∨ d.format = 'X')
    (hr : FORTRANReader.init fmt = .ok r) :
    (FixedcolumnEntry.mk a b 'A').read line =
      .ok (.str (pyStrip (pySlice line a b))) ∧
    (∃ vs, r.read line2 = .ok vs) ∧
    r.number_of_matches line2 = r.len := by
  obtain ⟨ds', hds', hfmt, hent⟩ := init_ok hr
  rw [hds] at hds'
  cases hds'
  have hallA : ∀ e ∈ r.entries, e.typespecifier = 'A' := by
    intro e he
    rw [hent] at he
    obtain ⟨_, _, d, hd, hdf, hdx⟩ := buildEntries_mem ds 0 e he
    rcases hax d hd with hA | hX
    · rw [← hdf, hA]
    · exact absurd hX hdx
  have hallok : ∀ e ∈ r.entries, isOkE (e.read line2) = true := by
    intro e he
    have hA := hallA e he
    rcases e with ⟨ea, eb, ec⟩
    simp only at hA
    subst hA
    rw [read_A]
    rfl
  refine ⟨read_A a b line, ?_, ?_⟩
  · exact readEntries_ok_of_all r.entries line2 hallok
  · rw [number_of_matches_eq_countP]
    unfold FORTRANReader.len
    exact List.countP_eq_length.mpr hallok

/-- C10 witness: the `A` entry `[0,3)` on the one-character line `"x"`,
and the reader compiled from `"A3,2X,A2"` on the empty line. -/
theorem c10_A_total_witness :
    (FixedcolumnEntry.mk 0 3 'A').read ("x".toList) =
      .ok (.str (pyStrip (pySlice ("x".toList) 0 3))) ∧
    (∃ vs, (FORTRANReader.mk [['A', '3'], ['2', 'X'], ['A', '2']]
        [⟨0, 3, 'A'⟩, ⟨5, 7, 'A'⟩]).read [] = .ok vs) ∧
    (FORTRANReader.mk [['A', '3'], ['2', 'X'], ['A', '2']]
        [⟨0, 3, 'A'⟩, ⟨5, 7, 'A'⟩]).number_of_matches [] =
      (FORTRANReader.mk [['A', '3'], ['2', 'X'], ['A', '2']]
        [⟨0, 3, 'A'⟩, ⟨5, 7, 'A'⟩]).len :=
  c10_A_total 0 3 ("x".toList) ("A3,2X,A2".toList)
    [⟨1, 'A', some 3, none, 3⟩, ⟨2, 'X', some 1, none, 2⟩,
     ⟨1, 'A', some 2, none, 2⟩] _ [] rfl (by decide) rfl

end MDAUtil
